import Mathlib

/-!
# Verification of the ScaledJob scale executor

A shallow embedding of `pkg/scaling/executor/scale_jobs.go`: the job-scaling
executor that decides how many new Kubernetes Jobs to create for a ScaledJob
target and prunes finished Jobs beyond per-outcome history limits.

Modelling conventions:
* Go `int64`/`int32` become `Int` (the values involved never overflow in the
  claims considered, and Go arithmetic here has no wrapping subtleties).
* `metav1.Time` pointers become `Option Nat`; `(*Time).Before` returns `false`
  whenever either side is `nil`, which `before` reproduces.
* Go maps used for labels become association lists with first-match lookup.
* The fallible remote client is represented by explicit parameters: the result
  of `client.List` is an `Except String (List Job)` argument, and `client.Delete`
  is a `Job → Bool` oracle (`true` = the delete call succeeded).
* `sort.Sort byCompletedTime` is an unspecified comparison sort over the
  `Less` relation `byCompletedTime`; it is modelled by an insertion sort over
  the same relation, which realizes the `sort.Sort` contract (a permutation
  that is sorted w.r.t. `Less` whenever `Less` is a strict weak order).
* A Go slice-out-of-range panic is modelled as `none` in an `Option` result.
-/

namespace ScaleJobs

/-- `batchv1.JobConditionType`: `Complete`, `Failed`, or any other value. -/
inductive JobConditionType where
  | complete
  | failed
  | other
deriving DecidableEq, Repr

/-- `v1.ConditionStatus`: `True`, `False`, `Unknown`. -/
inductive ConditionStatus where
  | isTrue
  | isFalse
  | unknown
deriving DecidableEq, Repr

/-- One entry of `Job.Status.Conditions`. -/
structure JobCondition where
  condType : JobConditionType
  status : ConditionStatus
deriving DecidableEq, Repr

/-- `corev1.PodSpec`, restricted to the field the executor touches.
`restartPolicy = ""` models the unset policy. -/
structure PodSpec where
  restartPolicy : String
deriving DecidableEq, Repr

/-- `corev1.PodTemplateSpec` (the `Template` inside the job target ref):
the executor writes its `GenerateName` and `Labels`.  `labels = none`
models a `nil` Go map. -/
structure PodTemplateSpec where
  generateName : String
  labels : Option (List (String × String))
  spec : PodSpec
deriving DecidableEq, Repr

/-- `batchv1.JobSpec` (the ScaledJob's `JobTargetRef`), restricted to the
template the executor reads and writes. -/
structure JobSpec where
  template : PodTemplateSpec
deriving DecidableEq, Repr

/-- `metav1.ObjectMeta` of a created Job, restricted to what `createJobs`
sets. -/
structure ObjectMeta where
  name : String
  generateName : String
  ns : String
  labels : List (String × String)
deriving DecidableEq, Repr

/-- `batchv1.JobStatus`: the conditions (set by the remote system) and the
completion timestamp (`nil` pointer = `none`). -/
structure JobStatus where
  conditions : List JobCondition
  completionTime : Option Nat
deriving DecidableEq, Repr

/-- `batchv1.Job`. -/
structure Job where
  meta : ObjectMeta
  spec : JobSpec
  status : JobStatus
deriving DecidableEq, Repr

/-- `kedav1alpha1.ScaledJob`, restricted to the fields `scale_jobs.go`
reads or writes.  `jobTargetRef` is `Spec.JobTargetRef`; the two history
limits are `nil`-able `int32` pointers. -/
structure ScaledJob where
  name : String
  ns : String
  jobTargetRef : JobSpec
  successfulJobsHistoryLimit : Option Int
  failedJobsHistoryLimit : Option Int
  lastActiveTime : Option Nat
deriving DecidableEq, Repr

/-- `defaultSuccessfulJobsHistoryLimit = int32(100)`. -/
def defaultSuccessfulJobsHistoryLimit : Int := 100

/-- `defaultFailedJobsHistoryLimit = int32(100)`. -/
def defaultFailedJobsHistoryLimit : Int := 100

/-- Go map assignment `m[k] = v` on an association list: overwrites any
existing binding of `k`. -/
def mapSet (m : List (String × String)) (k v : String) : List (String × String) :=
  (k, v) :: m.filter (fun p => p.1 ≠ k)

/-- `isJobFinished`: the `for ... range j.Status.Conditions` loop with its
early `return true`.  A job is finished when some condition of type
`Complete` or `Failed` has status `True`. -/
def isJobFinishedConds : List JobCondition → Bool
  | [] => false
  | c :: rest =>
    if (c.condType = .complete ∨ c.condType = .failed) ∧ c.status = .isTrue then
      true
    else
      isJobFinishedConds rest

/-- `(e *scaleExecutor) isJobFinished(j *batchv1.Job)`. -/
def isJobFinished (j : Job) : Bool :=
  isJobFinishedConds j.status.conditions

/-- `getFinishedJobConditionType`: first condition of type `Complete` or
`Failed` with status `True`; the Go function returns `""` when there is
none, modelled as `none`. -/
def getFinishedJobConditionTypeConds : List JobCondition → Option JobConditionType
  | [] => none
  | c :: rest =>
    if (c.condType = .complete ∨ c.condType = .failed) ∧ c.status = .isTrue then
      some c.condType
    else
      getFinishedJobConditionTypeConds rest

/-- `(e *scaleExecutor) getFinishedJobConditionType(j *batchv1.Job)`. -/
def getFinishedJobConditionType (j : Job) : Option JobConditionType :=
  getFinishedJobConditionTypeConds j.status.conditions

/-- `getRunningJobCount`: on a failed `client.List` it returns `0`;
otherwise it counts the listed jobs that are not finished (the
`runningJobs++` loop, modelled as a fold).  The `maxScale` parameter is
taken and, as in the source, never used. -/
def getRunningJobCount (listResult : Except String (List Job)) (maxScale : Int) : Int :=
  match listResult with
  | .error _ => 0
  | .ok jobs =>
    jobs.foldl (fun runningJobs job =>
      if !isJobFinished job then runningJobs + 1 else runningJobs) 0

/-- The clamped headroom computed by `RequestJobScale`:
`effectiveMaxScale = maxScale - runningJobCount`, floored at `0`. -/
def effectiveMaxScale (maxScale runningJobCount : Int) : Int :=
  let e := maxScale - runningJobCount
  if e < 0 then 0 else e

/-- The in-place mutation at the top of `createJobs`: stamp
`Template.GenerateName = name + "-"`, replace a `nil` label map by an
empty one, and set `Labels["scaledjob"] = name` on the ScaledJob's own
job target ref. -/
def stampTemplate (scaledJob : ScaledJob) : ScaledJob :=
  { scaledJob with
    jobTargetRef :=
      { scaledJob.jobTargetRef with
        template :=
          { scaledJob.jobTargetRef.template with
            generateName := scaledJob.name ++ "-"
            labels :=
              some (mapSet (scaledJob.jobTargetRef.template.labels.getD [])
                "scaledjob" scaledJob.name) } } }

/-- The restart-policy correction applied to each created job's spec:
Kubernetes Jobs disallow `RestartPolicyAlways`, so an empty policy is
replaced by `OnFailure`. -/
def fixRestartPolicy (s : JobSpec) : JobSpec :=
  if s.template.spec.restartPolicy = "" then
    { s with template := { s.template with spec := { restartPolicy := "OnFailure" } } }
  else
    s

/-- `version.Version` of the operator, an opaque identity string. -/
def kedaVersion : String := "2.0.0"

/-- The job value built in one iteration of the `createJobs` loop: fixed
metadata plus `Spec: *scaledJob.Spec.JobTargetRef.DeepCopy()` with the
restart-policy correction.  `DeepCopy` has value semantics, so the copy
is simply the current value of the (already stamped) target ref. -/
def mkJob (scaledJob : ScaledJob) : Job :=
  { meta :=
      { name := ""
        generateName := scaledJob.name ++ "-"
        ns := scaledJob.ns
        labels :=
          [("app.kubernetes.io/name", scaledJob.name),
           ("app.kubernetes.io/version", kedaVersion),
           ("app.kubernetes.io/part-of", scaledJob.name),
           ("app.kubernetes.io/managed-by", "keda-operator"),
           ("scaledjob", scaledJob.name)] }
    spec := fixRestartPolicy scaledJob.jobTargetRef
    status := { conditions := [], completionTime := none } }

/-- `createJobs(scaledJob, scaleTo, maxScale)`: mutates the target's
template, clamps `scaleTo` to `maxScale`, and attempts `int(scaleTo)`
create calls (zero when the clamped value is negative).  Returns the
mutated ScaledJob together with the list of job values submitted to
`client.Create`, one per attempted call (create failures are logged and
do not stop the loop, so every iteration submits its job). -/
def createJobs (scaledJob : ScaledJob) (scaleTo maxScale : Int) :
    ScaledJob × List Job :=
  let scaledJob := stampTemplate scaledJob
  let scaleTo := if scaleTo > maxScale then maxScale else scaleTo
  (scaledJob, List.replicate scaleTo.toNat (mkJob scaledJob))

/-- `(*metav1.Time).Before(u)`: strictly earlier, and `false` whenever either
pointer is `nil`. -/
def before : Option Nat → Option Nat → Bool
  | some t, some u => t < u
  | _, _ => false

/-- `byCompletedTime.Less(i, j)`: compare two jobs by completion time. -/
def byCompletedTime (a b : Job) : Bool :=
  before a.status.completionTime b.status.completionTime

/-- Insert a job into a list sorted by `byCompletedTime` (ascending). -/
def insertByCompletedTime (a : Job) : List Job → List Job
  | [] => [a]
  | b :: l =>
    if byCompletedTime b a then b :: insertByCompletedTime a l
    else a :: b :: l

/-- `sort.Sort(byCompletedTime(jobs))`: an unspecified comparison sort over
the `Less` relation `byCompletedTime`, modelled as insertion sort: the
result is a permutation of the input that is sorted w.r.t. `Less` whenever
`Less` is a strict weak order on the elements (here: whenever all completion
times are set). -/
def sortByCompletedTime : List Job → List Job
  | [] => []
  | a :: l => insertByCompletedTime a (sortByCompletedTime l)

/-- The classification loop of `cleanUp`: split the listed jobs into
`completedJobs` and `failedJobs` (in listing order) by their finished
condition type; jobs with no true finished condition go to neither. -/
def classifyJobs : List Job → List Job × List Job
  | [] => ([], [])
  | job :: rest =>
    let p := classifyJobs rest
    match getFinishedJobConditionType job with
    | some .complete => (job :: p.1, p.2)
    | some .failed => (p.1, job :: p.2)
    | _ => p

/-- The delete loop of `deleteJobsWithHistoryLimit` over the slice of jobs
scheduled for deletion: issue one `client.Delete` per job in order
(`del j = true` means the call succeeded); the first failed call returns
the error immediately, skipping the rest.  Returns the list of jobs for
which a delete call was issued, and `true` iff no call failed. -/
def issueDeletes (del : Job → Bool) : List Job → List Job × Bool
  | [] => ([], true)
  | j :: rest =>
    if del j then
      let p := issueDeletes del rest
      (j :: p.1, p.2)
    else
      ([j], false)

/-- `deleteJobsWithHistoryLimit(jobs, historyLimit)`: if the list is within
the limit, return success without deleting; otherwise delete the slice
`jobs[0:len(jobs)-historyLimit]`.  A slice bound exceeding `len(jobs)`
(which happens exactly when `historyLimit < 0`) is a Go panic, modelled as
`none`.  On `some (attempted, ok)`, `attempted` is the list of jobs for
which a delete call was issued and `ok` records whether all calls
succeeded (on `ok = false` the Go function returned the delete error). -/
def deleteJobsWithHistoryLimit (del : Job → Bool) (jobs : List Job)
    (historyLimit : Int) : Option (List Job × Bool) :=
  if (jobs.length : Int) ≤ historyLimit then
    some ([], true)
  else
    let deleteJobLength : Int := (jobs.length : Int) - historyLimit
    if (jobs.length : Int) < deleteJobLength then
      none
    else
      some (issueDeletes del (jobs.take deleteJobLength.toNat))

/-- The jobs of one sorted outcome class that remain in the remote system
after its delete batch completed with no failed call: the class minus the
deleted prefix `jobs[0:len(jobs)-limit]`. -/
def retainedAfterLimit (jobs : List Job) (limit : Int) : List Job :=
  if (jobs.length : Int) ≤ limit then jobs
  else jobs.drop ((jobs.length : Int) - limit).toNat

/-- How a `cleanUp` pass can fail: the `client.List` call failed, a
`client.Delete` call failed (the returned error), or the delete slice was
out of range (a Go panic). -/
inductive CleanErr where
  | listFailed (msg : String)
  | deleteFailed
  | panicked
deriving DecidableEq, Repr

/-- The observable outcome of a `cleanUp` pass: every delete call issued for
each outcome class (in order), the jobs of each class still present when
the pass ends without error, and the error if any. -/
structure CleanOutcome where
  deletesCompleted : List Job
  deletesFailed : List Job
  retainedCompleted : List Job
  retainedFailed : List Job
  error : Option CleanErr
deriving DecidableEq, Repr

/-- `cleanUp(scaledJob)`: list the target's jobs (`listResult` is the
outcome of that `client.List`), classify into completed/failed, sort each
class ascending by completion time, resolve the two history limits
(per-target override or default `100`), and run
`deleteJobsWithHistoryLimit` on the completed class then on the failed
class, propagating the first error. -/
def cleanUp (del : Job → Bool) (scaledJob : ScaledJob)
    (listResult : Except String (List Job)) : CleanOutcome :=
  match listResult with
  | .error msg =>
    { deletesCompleted := [], deletesFailed := []
      retainedCompleted := [], retainedFailed := []
      error := some (.listFailed msg) }
  | .ok items =>
    let classes := classifyJobs items
    let completedJobs := sortByCompletedTime classes.1
    let failedJobs := sortByCompletedTime classes.2
    let successfulJobsHistoryLimit :=
      scaledJob.successfulJobsHistoryLimit.getD defaultSuccessfulJobsHistoryLimit
    let failedJobsHistoryLimit :=
      scaledJob.failedJobsHistoryLimit.getD defaultFailedJobsHistoryLimit
    match deleteJobsWithHistoryLimit del completedJobs successfulJobsHistoryLimit with
    | none =>
      { deletesCompleted := [], deletesFailed := []
        retainedCompleted := [], retainedFailed := []
        error := some .panicked }
    | some (att1, ok1) =>
      if ok1 then
        match deleteJobsWithHistoryLimit del failedJobs failedJobsHistoryLimit with
        | none =>
          { deletesCompleted := att1, deletesFailed := []
            retainedCompleted := [], retainedFailed := []
            error := some .panicked }
        | some (att2, ok2) =>
          { deletesCompleted := att1
            deletesFailed := att2
            retainedCompleted := retainedAfterLimit completedJobs successfulJobsHistoryLimit
            retainedFailed := retainedAfterLimit failedJobs failedJobsHistoryLimit
            error := if ok2 then none else some .deleteFailed }
      else
        { deletesCompleted := att1, deletesFailed := []
          retainedCompleted := [], retainedFailed := []
          error := some .deleteFailed }

/-- The observable outcome of one `RequestJobScale` invocation. -/
structure ScaleOutcome where
  effectiveMaxScale : Int
  target : ScaledJob
  createdJobs : List Job
  cleanOutcome : CleanOutcome
deriving Repr

/-- `RequestJobScale(scaledJob, isActive, scaleTo, maxScale)`: compute the
running count from the first `client.List` result, clamp the headroom at
zero, create jobs only when active (recording `now` as the last active
time first), and always run `cleanUp` (against the second `client.List`
result; its error is logged, not raised). -/
def RequestJobScale (del : Job → Bool)
    (listResult listResultCleanup : Except String (List Job))
    (scaledJob : ScaledJob) (isActive : Bool) (scaleTo maxScale : Int)
    (now : Nat) : ScaleOutcome :=
  let runningJobCount := getRunningJobCount listResult maxScale
  let eff := effectiveMaxScale maxScale runningJobCount
  let created :=
    if isActive then
      createJobs { scaledJob with lastActiveTime := some now } scaleTo eff
    else
      (scaledJob, [])
  { effectiveMaxScale := eff
    target := created.1
    createdJobs := created.2
    cleanOutcome := cleanUp del created.1 listResultCleanup }

/-! ## Basic facts about `before` (the `metav1.Time` comparison) -/

theorem before_asymm {x y : Option Nat} (h : before x y = true) :
    before y x = false := by
  cases x <;> cases y <;> simp_all [before] <;> omega

theorem before_false_trans {x y z : Option Nat} (hx : x.isSome) (hy : y.isSome)
    (hz : z.isSome) (h1 : before z y = false) (h2 : before y x = false) :
    before z x = false := by
  obtain ⟨a, rfl⟩ := Option.isSome_iff_exists.mp hx
  obtain ⟨b, rfl⟩ := Option.isSome_iff_exists.mp hy
  obtain ⟨c, rfl⟩ := Option.isSome_iff_exists.mp hz
  simp_all [before]
  omega

theorem before_true_of_false_ne {x y : Option Nat} (hx : x.isSome) (hy : y.isSome)
    (h1 : before y x = false) (h2 : x ≠ y) : before x y = true := by
  obtain ⟨a, rfl⟩ := Option.isSome_iff_exists.mp hx
  obtain ⟨b, rfl⟩ := Option.isSome_iff_exists.mp hy
  simp_all [before]
  omega

/-! ## The sort model: permutation, length, sortedness -/

theorem perm_insertByCompletedTime (a : Job) (l : List Job) :
    (insertByCompletedTime a l).Perm (a :: l) := by
  induction l with
  | nil => rfl
  | cons b l ih =>
    rw [insertByCompletedTime]
    split
    · exact ((ih.cons b).trans (List.Perm.swap a b l))
    · rfl

theorem sortByCompletedTime_perm (l : List Job) :
    (sortByCompletedTime l).Perm l := by
  induction l with
  | nil => rfl
  | cons a l ih =>
    exact (perm_insertByCompletedTime a (sortByCompletedTime l)).trans (ih.cons a)

theorem length_sortByCompletedTime (l : List Job) :
    (sortByCompletedTime l).length = l.length :=
  (sortByCompletedTime_perm l).length_eq

theorem mem_sortByCompletedTime {x : Job} {l : List Job} :
    x ∈ sortByCompletedTime l ↔ x ∈ l :=
  (sortByCompletedTime_perm l).mem_iff

theorem pairwise_insertByCompletedTime (a : Job) (l : List Job)
    (ha : a.status.completionTime.isSome)
    (hl : ∀ x ∈ l, x.status.completionTime.isSome)
    (h : l.Pairwise (fun x y => byCompletedTime y x = false)) :
    (insertByCompletedTime a l).Pairwise (fun x y => byCompletedTime y x = false) := by
  induction l with
  | nil => simp [insertByCompletedTime]
  | cons b l ih =>
    rcases h with _ | ⟨hb, hrest⟩
    rw [insertByCompletedTime]
    by_cases hba : byCompletedTime b a = true
    · rw [if_pos hba]
      refine List.Pairwise.cons ?_ ?_
      · intro c hc
        rcases List.mem_cons.mp ((perm_insertByCompletedTime a l).mem_iff.mp hc) with hc | hc
        · subst hc
          exact before_asymm hba
        · exact hb c hc
      · exact ih (fun x hx => hl x (List.mem_cons_of_mem b hx)) hrest
    · rw [if_neg hba]
      rw [Bool.not_eq_true] at hba
      refine List.Pairwise.cons ?_ (List.Pairwise.cons hb hrest)
      intro c hc
      rcases List.mem_cons.mp hc with hc | hc
      · subst hc
        exact hba
      · exact before_false_trans ha (hl b (List.mem_cons_self b l))
          (hl c (List.mem_cons_of_mem b hc)) (hb c hc) hba

theorem pairwise_sortByCompletedTime (l : List Job)
    (hl : ∀ x ∈ l, x.status.completionTime.isSome) :
    (sortByCompletedTime l).Pairwise (fun x y => byCompletedTime y x = false) := by
  induction l with
  | nil => simp [sortByCompletedTime]
  | cons a l ih =>
    rw [sortByCompletedTime]
    exact pairwise_insertByCompletedTime a (sortByCompletedTime l)
      (hl a (List.mem_cons_self a l))
      (fun x hx => hl x (List.mem_cons_of_mem a (mem_sortByCompletedTime.mp hx)))
      (ih (fun x hx => hl x (List.mem_cons_of_mem a hx)))

/-! ## Facts about the delete loop and the history-limit function -/

theorem issueDeletes_all_ok (del : Job → Bool) (l : List Job)
    (h : ∀ x ∈ l, del x = true) :
    issueDeletes del l = (l, true) := by
  induction l with
  | nil => rfl
  | cons j rest ih =>
    rw [issueDeletes, if_pos (h j (List.mem_cons_self j rest)),
      ih (fun x hx => h x (List.mem_cons_of_mem j hx))]

theorem issueDeletes_fail (del : Job → Bool) (pre : List Job) (j : Job)
    (post : List Job) (hpre : ∀ x ∈ pre, del x = true) (hj : del j = false) :
    issueDeletes del (pre ++ j :: post) = (pre ++ [j], false) := by
  induction pre with
  | nil =>
    rw [List.nil_append, issueDeletes, if_neg (by simp [hj]), List.nil_append]
  | cons p rest ih =>
    rw [List.cons_append, issueDeletes,
      if_pos (hpre p (List.mem_cons_self p rest)),
      ih (fun x hx => hpre x (List.mem_cons_of_mem p hx))]
    rfl

theorem issueDeletes_ok (del : Job → Bool) (l : List Job)
    (h : (issueDeletes del l).2 = true) : (issueDeletes del l).1 = l := by
  induction l with
  | nil => rfl
  | cons j rest ih =>
    rw [issueDeletes] at h ⊢
    by_cases hj : del j
    · rw [if_pos hj] at h ⊢
      show j :: (issueDeletes del rest).1 = j :: rest
      rw [ih h]
    · rw [if_neg hj] at h
      simp at h

theorem deleteJobsWithHistoryLimit_ok_eq (del : Job → Bool) (jobs : List Job)
    (limit : Int) (att : List Job)
    (h : deleteJobsWithHistoryLimit del jobs limit = some (att, true)) :
    att ++ retainedAfterLimit jobs limit = jobs := by
  rw [deleteJobsWithHistoryLimit] at h
  rw [retainedAfterLimit]
  by_cases h1 : (jobs.length : Int) ≤ limit
  · rw [if_pos h1] at h
    simp only [Option.some.injEq, Prod.mk.injEq] at h
    rw [if_pos h1, ← h.1]
    rfl
  · rw [if_neg h1] at h
    by_cases h2 : (jobs.length : Int) < (jobs.length : Int) - limit
    · rw [if_pos h2] at h
      simp at h
    · rw [if_neg h2] at h
      simp only [Option.some.injEq] at h
      have hatt : att = jobs.take ((jobs.length : Int) - limit).toNat := by
        have hok : (issueDeletes del
            (jobs.take ((jobs.length : Int) - limit).toNat)).2 = true := by
          rw [h]
        have := issueDeletes_ok del
          (jobs.take ((jobs.length : Int) - limit).toNat) hok
        rw [h] at this
        exact this
      subst hatt
      rw [if_neg h1]
      exact List.take_append_drop _ _

theorem deleteJobsWithHistoryLimit_within (del : Job → Bool) (jobs : List Job)
    (limit : Int) (h : (jobs.length : Int) ≤ limit) :
    deleteJobsWithHistoryLimit del jobs limit = some ([], true) := by
  rw [deleteJobsWithHistoryLimit, if_pos h]

theorem length_retainedAfterLimit_le (del : Job → Bool) (jobs : List Job)
    (limit : Int) (h : (deleteJobsWithHistoryLimit del jobs limit).isSome) :
    ((retainedAfterLimit jobs limit).length : Int) ≤ limit := by
  rw [deleteJobsWithHistoryLimit] at h
  rw [retainedAfterLimit]
  by_cases h1 : (jobs.length : Int) ≤ limit
  · rw [if_pos h1]
    exact h1
  · rw [if_neg h1]
    rw [if_neg h1] at h
    by_cases h2 : (jobs.length : Int) < (jobs.length : Int) - limit
    · rw [if_pos h2] at h
      simp at h
    · simp only [List.length_drop]
      omega

/-! ## Remaining helper lemmas -/

theorem effectiveMaxScale_eq_max (maxScale runningJobCount : Int) :
    effectiveMaxScale maxScale runningJobCount = max 0 (maxScale - runningJobCount) := by
  simp only [effectiveMaxScale]
  split_ifs <;> omega

theorem isJobFinishedConds_eq_any (l : List JobCondition) :
    isJobFinishedConds l
      = l.any (fun c =>
          (c.condType = .complete ∨ c.condType = .failed) ∧ c.status = .isTrue) := by
  induction l with
  | nil => rfl
  | cons c rest ih =>
    rw [isJobFinishedConds]
    split_ifs with h
    · simp [List.any_cons, h]
    · simp [List.any_cons, h, ih]

theorem foldl_running_count (l : List Job) (acc : Int) :
    l.foldl (fun runningJobs job =>
        if !isJobFinished job then runningJobs + 1 else runningJobs) acc
      = acc + ((l.filter (fun j => !isJobFinished j)).length : Int) := by
  induction l generalizing acc with
  | nil => simp
  | cons j rest ih =>
    rw [List.foldl_cons, ih]
    by_cases h : isJobFinished j <;> simp [h, List.filter_cons] <;> push_cast <;> ring

/-! ## Concrete fixtures used by the witness theorems -/

/-- A concrete ScaledJob: template `GenerateName` `"orig"`, `nil` labels, no
restart policy, per-target successful-history limit `1`. -/
def sampleTarget : ScaledJob :=
  { name := "myjob"
    ns := "default"
    jobTargetRef :=
      { template := { generateName := "orig", labels := none
                      spec := { restartPolicy := "" } } }
    successfulJobsHistoryLimit := some 1
    failedJobsHistoryLimit := none
    lastActiveTime := none }

/-- A concrete completed job with completion time `t`. -/
def sampleJob (t : Nat) : Job :=
  { meta := { name := "job", generateName := "", ns := "default"
              labels := [("scaledjob", "myjob")] }
    spec := { template := { generateName := "", labels := none
                            spec := { restartPolicy := "Never" } } }
    status := { conditions := [{ condType := .complete, status := .isTrue }]
                completionTime := some t } }

/-! ## The claims -/

/-- C1: for non-negative `desiredCount` and `effectiveCeiling`, `createJobs`
attempts exactly `min(desiredCount, effectiveCeiling)` creates; with
ceiling `5`, running count `3` and desired count `10` exactly `2` creates
are attempted, and with effective ceiling `0` zero creates are attempted
regardless of the desired count. -/
theorem createJobs_count_min (sj : ScaledJob) (desiredCount effectiveCeiling : Int)
    (hd : 0 ≤ desiredCount) (hc : 0 ≤ effectiveCeiling) :
    ((createJobs sj desiredCount effectiveCeiling).2.length : Int)
      = min desiredCount effectiveCeiling
    ∧ (createJobs sj 10 (effectiveMaxScale 5 3)).2.length = 2
    ∧ ∀ d : Int, (createJobs sj d 0).2.length = 0 := by
  refine ⟨?_, ?_, ?_⟩
  · simp only [createJobs, List.length_replicate]
    split_ifs with h <;> omega
  · simp only [createJobs, effectiveMaxScale, List.length_replicate]
    decide
  · intro d
    simp only [createJobs, List.length_replicate]
    split_ifs with h <;> omega

theorem createJobs_count_min_witness :
    ((createJobs sampleTarget 10 2).2.length : Int) = min 10 2 :=
  (createJobs_count_min sampleTarget 10 2 (by decide) (by decide)).1

/-- C2: for `ceiling ≥ 0` and `runningCount ≥ 0`, the effective ceiling
computed by `RequestJobScale` before any creation is
`max(0, ceiling - runningCount)` and is never negative. -/
theorem effectiveMaxScale_spec (ceiling runningCount : Int)
    (hc : 0 ≤ ceiling) (hr : 0 ≤ runningCount) :
    effectiveMaxScale ceiling runningCount = max 0 (ceiling - runningCount)
    ∧ 0 ≤ effectiveMaxScale ceiling runningCount
    ∧ ∀ (del : Job → Bool) (lr lr2 : Except String (List Job)) (sj : ScaledJob)
        (isActive : Bool) (scaleTo : Int) (now : Nat),
        (RequestJobScale del lr lr2 sj isActive scaleTo ceiling now).effectiveMaxScale
          = max 0 (ceiling - getRunningJobCount lr ceiling) := by
  refine ⟨effectiveMaxScale_eq_max _ _, ?_, ?_⟩
  · rw [effectiveMaxScale_eq_max]
    omega
  · intro del lr lr2 sj isActive scaleTo now
    simp only [RequestJobScale]
    exact effectiveMaxScale_eq_max _ _

theorem effectiveMaxScale_spec_witness :
    effectiveMaxScale 5 3 = max 0 (5 - 3) :=
  (effectiveMaxScale_spec 5 3 (by decide) (by decide)).1

/-- C8: when the remote list query fails, the running-count computation
returns zero, while `cleanUp` returns the listing error to its caller and
issues no delete (no classification, sorting or deletion happens). -/
theorem listError_behavior (msg : String) (m : Int) (del : Job → Bool)
    (sj : ScaledJob) :
    getRunningJobCount (.error msg) m = 0
    ∧ cleanUp del sj (.error msg) =
        { deletesCompleted := [], deletesFailed := []
          retainedCompleted := [], retainedFailed := []
          error := some (.listFailed msg) } :=
  ⟨rfl, rfl⟩

/-- C9: with a non-negative history limit `deleteJobsWithHistoryLimit`
never goes out of bounds (never panics), whereas with a negative limit and
a non-empty job list the slice bound `len(jobs) - historyLimit` exceeds
the list length and the access panics. -/
theorem deleteJobs_bounds (del : Job → Bool) (jobs : List Job) (limit : Int) :
    (0 ≤ limit → deleteJobsWithHistoryLimit del jobs limit ≠ none)
    ∧ (limit < 0 → jobs ≠ [] → deleteJobsWithHistoryLimit del jobs limit = none) := by
  constructor
  · intro hlim
    rw [deleteJobsWithHistoryLimit]
    by_cases h1 : (jobs.length : Int) ≤ limit
    · rw [if_pos h1]
      simp
    · rw [if_neg h1, if_neg (by omega)]
      simp
  · intro hlim hne
    rw [deleteJobsWithHistoryLimit]
    have hlen : 0 < jobs.length := List.length_pos.mpr hne
    rw [if_neg (by omega), if_pos (by omega)]

theorem deleteJobs_bounds_witness :
    deleteJobsWithHistoryLimit (fun _ => true) [sampleJob 1] 1 ≠ none
    ∧ deleteJobsWithHistoryLimit (fun _ => true) [sampleJob 1] (-1) = none :=
  ⟨(deleteJobs_bounds (fun _ => true) [sampleJob 1] 1).1 (by decide),
   (deleteJobs_bounds (fun _ => true) [sampleJob 1] (-1)).2 (by decide) (by decide)⟩

/-- C10: the running-job count does not depend on the `maxScale` argument
(the parameter is never used), and it equals the number of listed jobs
having no `Complete` or `Failed` condition with true status. -/
theorem runningCount_ignores_maxScale (jobs : List Job) (m1 m2 : Int) :
    getRunningJobCount (.ok jobs) m1 = getRunningJobCount (.ok jobs) m2
    ∧ getRunningJobCount (.ok jobs) m1
      = ((jobs.filter (fun j =>
          !(j.status.conditions.any (fun c =>
            (c.condType = .complete ∨ c.condType = .failed)
              ∧ c.status = .isTrue)))).length : Int) := by
  constructor
  · rfl
  · show (jobs.foldl (fun runningJobs job =>
        if !isJobFinished job then runningJobs + 1 else runningJobs) 0) = _
    rw [foldl_running_count, zero_add]
    congr 1
    simp only [isJobFinished, isJobFinishedConds_eq_any]

/-- C7: a created instance whose template has no restart policy set is
submitted with policy `OnFailure`; a template with an explicit policy is
passed through to the created instance unchanged. -/
theorem restartPolicy_default (sj : ScaledJob) (scaleTo maxScale : Int)
    (jb : Job) (hmem : jb ∈ (createJobs sj scaleTo maxScale).2) :
    (sj.jobTargetRef.template.spec.restartPolicy = "" →
      jb.spec.template.spec.restartPolicy = "OnFailure")
    ∧ (sj.jobTargetRef.template.spec.restartPolicy ≠ "" →
      jb.spec.template.spec.restartPolicy
        = sj.jobTargetRef.template.spec.restartPolicy) := by
  have hjb : jb = mkJob (stampTemplate sj) := by
    simp only [createJobs] at hmem
    exact List.eq_of_mem_replicate hmem
  subst hjb
  constructor
  · intro h
    simp [mkJob, fixRestartPolicy, stampTemplate, h]
  · intro h
    simp [mkJob, fixRestartPolicy, stampTemplate, h]

theorem restartPolicy_default_witness :
    (mkJob (stampTemplate sampleTarget)).spec.template.spec.restartPolicy
      = "OnFailure" :=
  (restartPolicy_default sampleTarget 1 1 (mkJob (stampTemplate sampleTarget))
    (by decide)).1 rfl

/-- C3 counterexample: the claim that the creation process leaves the
target's own template (its `GenerateName` and labels) unchanged is false:
`createJobs` rewrites the template's `GenerateName` to `name + "-"` before
copying, so after creation the target's template differs from its
original value. -/
theorem createJobs_template_mutated_cex :
    (createJobs sampleTarget 1 1).1.jobTargetRef.template.generateName = "myjob-"
    ∧ sampleTarget.jobTargetRef.template.generateName = "orig"
    ∧ (createJobs sampleTarget 1 1).1.jobTargetRef.template
        ≠ sampleTarget.jobTargetRef.template := by
  refine ⟨rfl, rfl, ?_⟩
  decide

/-- C3 (amended): each created instance's spec is an independent deep copy
of the target's template as stamped by `createJobs` (mutating one
instance leaves every other instance unchanged), but the creation process
first rewrites the target's own template, setting its `GenerateName` to
`name + "-"` and its `scaledjob` label to the target's name, rather than
leaving it unchanged. -/
theorem createJobs_deepcopy_amended (sj : ScaledJob) (scaleTo maxScale : Int) :
    (createJobs sj scaleTo maxScale).1.jobTargetRef.template.generateName
      = sj.name ++ "-"
    ∧ (((createJobs sj scaleTo maxScale).1.jobTargetRef.template.labels.getD
        []).lookup "scaledjob") = some sj.name
    ∧ (∀ jb ∈ (createJobs sj scaleTo maxScale).2,
        jb.spec = fixRestartPolicy (createJobs sj scaleTo maxScale).1.jobTargetRef)
    ∧ (∀ i j : Nat, ∀ x : Job, j ≠ i →
        ((createJobs sj scaleTo maxScale).2.set i x)[j]?
          = (createJobs sj scaleTo maxScale).2[j]?) := by
  refine ⟨rfl, ?_, ?_, ?_⟩
  · simp [createJobs, stampTemplate, mapSet, List.lookup]
  · intro jb hmem
    have hjb : jb = mkJob (stampTemplate sj) := by
      simp only [createJobs] at hmem
      exact List.eq_of_mem_replicate hmem
    subst hjb
    rfl
  · intro i j x hij
    exact List.getElem?_set_ne (fun h => hij h.symm)

theorem createJobs_deepcopy_amended_witness :
    (mkJob (stampTemplate sampleTarget)).spec
      = fixRestartPolicy (createJobs sampleTarget 2 2).1.jobTargetRef
    ∧ ((createJobs sampleTarget 2 2).2.set 0 (sampleJob 9))[1]?
        = (createJobs sampleTarget 2 2).2[1]? :=
  ⟨(createJobs_deepcopy_amended sampleTarget 2 2).2.2.1
      (mkJob (stampTemplate sampleTarget)) (by decide),
   (createJobs_deepcopy_amended sampleTarget 2 2).2.2.2 0 1 (sampleJob 9)
      (by decide)⟩

/-- C6: within one pruning batch the first remote-delete failure aborts
all remaining deletes of the batch and the error is propagated to the
pruner's caller: with 5 scheduled deletions and the delete call failing on
the 3rd, calls are issued for the first three jobs only (the first two
succeed, the third fails), the 4th and 5th get no call, and `cleanUp`
returns the error, issuing no delete for the other class. -/
theorem delete_abort_propagate (del : Job → Bool) :
    (∀ (pre : List Job) (j : Job) (post : List Job),
        (∀ x ∈ pre, del x = true) → del j = false →
        issueDeletes del (pre ++ j :: post) = (pre ++ [j], false))
    ∧ (∀ j1 j2 j3 j4 j5 : Job, del j1 = true → del j2 = true → del j3 = false →
        deleteJobsWithHistoryLimit del [j1, j2, j3, j4, j5] 0
          = some ([j1, j2, j3], false))
    ∧ (∀ (sj : ScaledJob) (items att : List Job),
        deleteJobsWithHistoryLimit del
            (sortByCompletedTime (classifyJobs items).1)
            (sj.successfulJobsHistoryLimit.getD defaultSuccessfulJobsHistoryLimit)
          = some (att, false) →
        (cleanUp del sj (.ok items)).error = some .deleteFailed
        ∧ (cleanUp del sj (.ok items)).deletesCompleted = att
        ∧ (cleanUp del sj (.ok items)).deletesFailed = []) := by
  refine ⟨issueDeletes_fail del, ?_, ?_⟩
  · intro j1 j2 j3 j4 j5 h1 h2 h3
    have hpre : ∀ x ∈ ([j1, j2] : List Job), del x = true := by
      intro x hx
      rcases List.mem_cons.mp hx with rfl | hx
      · exact h1
      rcases List.mem_cons.mp hx with rfl | hx
      · exact h2
      simp at hx
    rw [deleteJobsWithHistoryLimit, if_neg (by norm_num), if_neg (by norm_num)]
    have ht : ((([j1, j2, j3, j4, j5] : List Job).length : Int) - 0).toNat = 5 := by
      rfl
    rw [ht]
    rw [show (List.take 5 [j1, j2, j3, j4, j5] : List Job)
        = [j1, j2] ++ j3 :: [j4, j5] from rfl]
    rw [issueDeletes_fail del [j1, j2] j3 [j4, j5] hpre h3]
    rfl
  · intro sj items att hdel
    rw [cleanUp]
    rw [hdel]
    exact ⟨rfl, rfl, rfl⟩

theorem delete_abort_propagate_witness :
    deleteJobsWithHistoryLimit (fun j => j.status.completionTime ≠ some 3)
        [sampleJob 1, sampleJob 2, sampleJob 3, sampleJob 4, sampleJob 5] 0
      = some ([sampleJob 1, sampleJob 2, sampleJob 3], false) :=
  (delete_abort_propagate (fun j => j.status.completionTime ≠ some 3)).2.1
    (sampleJob 1) (sampleJob 2) (sampleJob 3) (sampleJob 4) (sampleJob 5)
    (by decide) (by decide) (by decide)

/-- C4: after a `cleanUp` pass that completes without error, each
finished-outcome class retains at most its configured history limit (the
per-target limit if set, otherwise the default `100`); a class already
within its limit gets no delete calls, and when both classes are within
their limits the pass deletes nothing and succeeds. -/
theorem cleanUp_history_limit (del : Job → Bool) (sj : ScaledJob)
    (items : List Job) :
    ((cleanUp del sj (.ok items)).error = none →
      ((cleanUp del sj (.ok items)).retainedCompleted.length : Int)
          ≤ sj.successfulJobsHistoryLimit.getD defaultSuccessfulJobsHistoryLimit
        ∧ ((cleanUp del sj (.ok items)).retainedFailed.length : Int)
          ≤ sj.failedJobsHistoryLimit.getD defaultFailedJobsHistoryLimit)
    ∧ (((classifyJobs items).1.length : Int)
          ≤ sj.successfulJobsHistoryLimit.getD defaultSuccessfulJobsHistoryLimit →
        (cleanUp del sj (.ok items)).deletesCompleted = [])
    ∧ (((classifyJobs items).2.length : Int)
          ≤ sj.failedJobsHistoryLimit.getD defaultFailedJobsHistoryLimit →
        (cleanUp del sj (.ok items)).deletesFailed = [])
    ∧ (((classifyJobs items).1.length : Int)
          ≤ sj.successfulJobsHistoryLimit.getD defaultSuccessfulJobsHistoryLimit →
       ((classifyJobs items).2.length : Int)
          ≤ sj.failedJobsHistoryLimit.getD defaultFailedJobsHistoryLimit →
        (cleanUp del sj (.ok items)).error = none)
    ∧ ((cleanUp del sj (.ok items)).error = none →
        ((cleanUp del sj (.ok items)).deletesCompleted
            ++ (cleanUp del sj (.ok items)).retainedCompleted).Perm
          (classifyJobs items).1
        ∧ ((cleanUp del sj (.ok items)).deletesFailed
            ++ (cleanUp del sj (.ok items)).retainedFailed).Perm
          (classifyJobs items).2) := by
  refine ⟨?_, ?_, ?_, ?_, ?_⟩
  · intro herr
    rcases h1 : deleteJobsWithHistoryLimit del
        (sortByCompletedTime (classifyJobs items).1)
        (sj.successfulJobsHistoryLimit.getD defaultSuccessfulJobsHistoryLimit)
      with _ | ⟨att1, ok1⟩
    · simp [cleanUp, h1] at herr
    · cases ok1
      · simp [cleanUp, h1] at herr
      · rcases h2 : deleteJobsWithHistoryLimit del
            (sortByCompletedTime (classifyJobs items).2)
            (sj.failedJobsHistoryLimit.getD defaultFailedJobsHistoryLimit)
          with _ | ⟨att2, ok2⟩
        · simp [cleanUp, h1, h2] at herr
        · cases ok2
          · simp [cleanUp, h1, h2] at herr
          · simp only [cleanUp, h1, h2]
            constructor
            · exact length_retainedAfterLimit_le del _ _ (by rw [h1]; rfl)
            · exact length_retainedAfterLimit_le del _ _ (by rw [h2]; rfl)
  · intro hwithin
    have h1 : deleteJobsWithHistoryLimit del
        (sortByCompletedTime (classifyJobs items).1)
        (sj.successfulJobsHistoryLimit.getD defaultSuccessfulJobsHistoryLimit)
        = some ([], true) :=
      deleteJobsWithHistoryLimit_within _ _ _
        (by rw [length_sortByCompletedTime]; exact hwithin)
    rcases h2 : deleteJobsWithHistoryLimit del
        (sortByCompletedTime (classifyJobs items).2)
        (sj.failedJobsHistoryLimit.getD defaultFailedJobsHistoryLimit)
      with _ | ⟨att2, ok2⟩
    · simp [cleanUp, h1, h2]
    · simp [cleanUp, h1, h2]
  · intro hwithin
    have h2 : deleteJobsWithHistoryLimit del
        (sortByCompletedTime (classifyJobs items).2)
        (sj.failedJobsHistoryLimit.getD defaultFailedJobsHistoryLimit)
        = some ([], true) :=
      deleteJobsWithHistoryLimit_within _ _ _
        (by rw [length_sortByCompletedTime]; exact hwithin)
    rcases h1 : deleteJobsWithHistoryLimit del
        (sortByCompletedTime (classifyJobs items).1)
        (sj.successfulJobsHistoryLimit.getD defaultSuccessfulJobsHistoryLimit)
      with _ | ⟨att1, ok1⟩
    · simp [cleanUp, h1]
    · cases ok1
      · simp [cleanUp, h1]
      · simp [cleanUp, h1, h2]
  · intro hs hf
    have h1 : deleteJobsWithHistoryLimit del
        (sortByCompletedTime (classifyJobs items).1)
        (sj.successfulJobsHistoryLimit.getD defaultSuccessfulJobsHistoryLimit)
        = some ([], true) :=
      deleteJobsWithHistoryLimit_within _ _ _
        (by rw [length_sortByCompletedTime]; exact hs)
    have h2 : deleteJobsWithHistoryLimit del
        (sortByCompletedTime (classifyJobs items).2)
        (sj.failedJobsHistoryLimit.getD defaultFailedJobsHistoryLimit)
        = some ([], true) :=
      deleteJobsWithHistoryLimit_within _ _ _
        (by rw [length_sortByCompletedTime]; exact hf)
    simp [cleanUp, h1, h2]
  · intro herr
    rcases h1 : deleteJobsWithHistoryLimit del
        (sortByCompletedTime (classifyJobs items).1)
        (sj.successfulJobsHistoryLimit.getD defaultSuccessfulJobsHistoryLimit)
      with _ | ⟨att1, ok1⟩
    · simp [cleanUp, h1] at herr
    · cases ok1
      · simp [cleanUp, h1] at herr
      · rcases h2 : deleteJobsWithHistoryLimit del
            (sortByCompletedTime (classifyJobs items).2)
            (sj.failedJobsHistoryLimit.getD defaultFailedJobsHistoryLimit)
          with _ | ⟨att2, ok2⟩
        · simp [cleanUp, h1, h2] at herr
        · cases ok2
          · simp [cleanUp, h1, h2] at herr
          · simp only [cleanUp, h1, h2, if_true]
            constructor
            · rw [deleteJobsWithHistoryLimit_ok_eq del _ _ _ h1]
              exact sortByCompletedTime_perm _
            · rw [deleteJobsWithHistoryLimit_ok_eq del _ _ _ h2]
              exact sortByCompletedTime_perm _

theorem cleanUp_history_limit_witness :
    ((cleanUp (fun _ => true) sampleTarget
        (.ok [sampleJob 2, sampleJob 3, sampleJob 1])).retainedCompleted.length : Int)
      ≤ sampleTarget.successfulJobsHistoryLimit.getD defaultSuccessfulJobsHistoryLimit
    ∧ ((cleanUp (fun _ => true) sampleTarget
        (.ok [sampleJob 2, sampleJob 3, sampleJob 1])).retainedFailed.length : Int)
      ≤ sampleTarget.failedJobsHistoryLimit.getD defaultFailedJobsHistoryLimit :=
  (cleanUp_history_limit (fun _ => true) sampleTarget
    [sampleJob 2, sampleJob 3, sampleJob 1]).1 (by decide)

/-- C5: when a sorted finished-outcome class of size `n` exceeds its limit
`k`, the pruner issues delete calls for exactly the `n - k` instances with
the earliest completion timestamps, in ascending completion-time order
(oldest first), so the `k` newest by completion time survive: the deleted
prefix is strictly ascending, every deleted instance completed strictly
before every survivor, and deleted plus survivors are exactly the class. -/
theorem pruner_deletes_oldest (jobs : List Job) (k : Int)
    (hk : 0 ≤ k) (hlen : k < (jobs.length : Int))
    (hsome : ∀ j ∈ jobs, j.status.completionTime.isSome)
    (hdist : jobs.Pairwise (fun a b =>
      a.status.completionTime ≠ b.status.completionTime)) :
    deleteJobsWithHistoryLimit (fun _ => true) (sortByCompletedTime jobs) k
      = some ((sortByCompletedTime jobs).take ((jobs.length : Int) - k).toNat, true)
    ∧ (((sortByCompletedTime jobs).take ((jobs.length : Int) - k).toNat).length : Int)
        = (jobs.length : Int) - k
    ∧ ((sortByCompletedTime jobs).take ((jobs.length : Int) - k).toNat).Pairwise
        (fun a b => byCompletedTime a b = true)
    ∧ (∀ a ∈ (sortByCompletedTime jobs).take ((jobs.length : Int) - k).toNat,
       ∀ b ∈ (sortByCompletedTime jobs).drop ((jobs.length : Int) - k).toNat,
        byCompletedTime a b = true)
    ∧ ((sortByCompletedTime jobs).take ((jobs.length : Int) - k).toNat
        ++ (sortByCompletedTime jobs).drop ((jobs.length : Int) - k).toNat).Perm
        jobs := by
  have hslen : (sortByCompletedTime jobs).length = jobs.length :=
    length_sortByCompletedTime jobs
  have hsome2 : ∀ x ∈ sortByCompletedTime jobs, x.status.completionTime.isSome :=
    fun x hx => hsome x (mem_sortByCompletedTime.mp hx)
  have hsorted := pairwise_sortByCompletedTime jobs hsome
  have hdist2 : (sortByCompletedTime jobs).Pairwise
      (fun a b => a.status.completionTime ≠ b.status.completionTime) :=
    ((sortByCompletedTime_perm jobs).pairwise_iff (fun h => h.symm)).mpr hdist
  have hstrict : (sortByCompletedTime jobs).Pairwise
      (fun a b => byCompletedTime a b = true) := by
    refine List.Pairwise.imp_of_mem ?_ (hsorted.and hdist2)
    intro a b ha hb hab
    exact before_true_of_false_ne (hsome2 a ha) (hsome2 b hb) hab.1 hab.2
  refine ⟨?_, ?_, ?_, ?_, ?_⟩
  · rw [deleteJobsWithHistoryLimit, hslen]
    rw [if_neg (by omega), if_neg (by omega)]
    rw [issueDeletes_all_ok _ _ (fun x _ => rfl)]
  · rw [List.length_take, hslen]
    omega
  · exact List.Pairwise.sublist (List.take_sublist _ _) hstrict
  · have hsplit := hstrict
    rw [← List.take_append_drop (((jobs.length : Int) - k).toNat)
      (sortByCompletedTime jobs)] at hsplit
    exact (List.pairwise_append.mp hsplit).2.2
  · rw [List.take_append_drop]
    exact sortByCompletedTime_perm jobs

theorem pruner_deletes_oldest_witness :
    deleteJobsWithHistoryLimit (fun _ => true)
        (sortByCompletedTime [sampleJob 2, sampleJob 3, sampleJob 1]) 1
      = some ((sortByCompletedTime [sampleJob 2, sampleJob 3, sampleJob 1]).take
          ((([sampleJob 2, sampleJob 3, sampleJob 1].length : Int)) - 1).toNat, true)
    ∧ (sortByCompletedTime [sampleJob 2, sampleJob 3, sampleJob 1]).drop
          ((([sampleJob 2, sampleJob 3, sampleJob 1].length : Int)) - 1).toNat
        = [sampleJob 3] := by
  refine ⟨(pruner_deletes_oldest [sampleJob 2, sampleJob 3, sampleJob 1] 1
    (by decide) (by decide) (by decide) (by decide)).1, by decide⟩

end ScaleJobs
